import Mathlib

/-!
Verification of the geodesic-to-planar conversion pipeline of the
sticky-svg-route-map repository.

The embedded code comes from two places in the repository:
* the GPX metadata computation in the `TrackUploader` component
  (`parseGPXFile`: bounds, elevation gain, duration), and
* the coordinate-transform / SVG-converter module
  (`CoordinateTransform.calculateOptimalDimensions`,
  `CoordinateTransform.gpsToSVG`, `TrackToSVGConverter.convert`,
  `TrackToSVGConverter.simplifyPath`,
  `TrackToSVGConverter.pointToLineDistance`).

JavaScript numbers are modelled by `JSNum`: an exact rational together
with the three IEEE-754 non-finite values (+Infinity, -Infinity, NaN)
that the source can produce by dividing by a zero span.  Negative zero
is not modelled (no embedded computation distinguishes it), and finite
arithmetic is exact rational arithmetic.  The two transcendental
library calls of the source, `Math.cos` (applied to degrees here, the
`* Math.PI / 180` conversion being folded into the function) and
`Math.sqrt`, are taken as parameters `cosF sq : ℚ → ℚ` of the embedded
definitions, since their exact values are irrelevant to every claim.
-/

/-- Model of a JavaScript (IEEE-754 double) number at the precision the
claims need: exact finite rationals plus the non-finite values. -/
inductive JSNum : Type where
  | fin : ℚ → JSNum
  | posInf : JSNum
  | negInf : JSNum
  | nan : JSNum
deriving DecidableEq, Repr, Inhabited

namespace JSNum

/-- JS addition. -/
def add : JSNum → JSNum → JSNum
  | fin a, fin b => fin (a + b)
  | fin _, posInf => posInf
  | posInf, fin _ => posInf
  | posInf, posInf => posInf
  | fin _, negInf => negInf
  | negInf, fin _ => negInf
  | negInf, negInf => negInf
  | posInf, negInf => nan
  | negInf, posInf => nan
  | nan, _ => nan
  | _, nan => nan

/-- JS negation. -/
def neg : JSNum → JSNum
  | fin a => fin (-a)
  | posInf => negInf
  | negInf => posInf
  | nan => nan

/-- JS subtraction. -/
def sub (a b : JSNum) : JSNum := add a (neg b)

/-- JS multiplication (`0 * Infinity = NaN`). -/
def mul : JSNum → JSNum → JSNum
  | fin a, fin b => fin (a * b)
  | fin a, posInf => if 0 < a then posInf else if a < 0 then negInf else nan
  | posInf, fin a => if 0 < a then posInf else if a < 0 then negInf else nan
  | fin a, negInf => if 0 < a then negInf else if a < 0 then posInf else nan
  | negInf, fin a => if 0 < a then negInf else if a < 0 then posInf else nan
  | posInf, posInf => posInf
  | posInf, negInf => negInf
  | negInf, posInf => negInf
  | negInf, negInf => posInf
  | nan, _ => nan
  | _, nan => nan

/-- JS division (`x / 0` is an infinity for `x ≠ 0` and NaN for `x = 0`;
the rational zero denominator is treated as `+0`). -/
def div : JSNum → JSNum → JSNum
  | fin a, fin b =>
      if b = 0 then (if a = 0 then nan else if 0 < a then posInf else negInf)
      else fin (a / b)
  | fin _, posInf => fin 0
  | fin _, negInf => fin 0
  | posInf, fin b => if 0 ≤ b then posInf else negInf
  | negInf, fin b => if 0 ≤ b then negInf else posInf
  | posInf, posInf => nan
  | posInf, negInf => nan
  | negInf, posInf => nan
  | negInf, negInf => nan
  | nan, _ => nan
  | _, nan => nan

/-- JS `<` comparison: any comparison with NaN is false. -/
def ltb : JSNum → JSNum → Bool
  | fin a, fin b => decide (a < b)
  | fin _, posInf => true
  | negInf, fin _ => true
  | negInf, posInf => true
  | _, _ => false

/-- JS `>` comparison. -/
def gtb (a b : JSNum) : Bool := ltb b a

/-- JS `Math.round`: nearest integer, ties toward positive infinity;
the non-finite values are returned unchanged. -/
def round : JSNum → JSNum
  | fin q => fin ((⌊q + 1/2⌋ : ℤ) : ℚ)
  | x => x

/-- JS `Math.sqrt`, parameterized by the value `sq` it takes on
nonnegative rationals; negative arguments give NaN. -/
def jsqrt (sq : ℚ → ℚ) : JSNum → JSNum
  | fin q => if q < 0 then nan else fin (sq q)
  | posInf => posInf
  | negInf => nan
  | nan => nan

/-- JS `Number.prototype.toFixed(2)`, kept as a number: the value
rounded to two decimals (ties away from zero toward positive infinity,
as the spec's "pick the larger n" rule says); the string formatting
itself is abstracted away.  Non-finite values are returned unchanged. -/
def toFixed2 : JSNum → JSNum
  | fin q => fin (((⌊q * 100 + 1/2⌋ : ℤ) : ℚ) / 100)
  | x => x

instance : Add JSNum := ⟨add⟩
instance : Sub JSNum := ⟨sub⟩
instance : Mul JSNum := ⟨mul⟩
instance : Div JSNum := ⟨div⟩
instance : Neg JSNum := ⟨neg⟩

@[simp] theorem fin_add_fin (a b : ℚ) : fin a + fin b = fin (a + b) := rfl

@[simp] theorem fin_sub_fin (a b : ℚ) : fin a - fin b = fin (a - b) := by
  show add (fin a) (neg (fin b)) = fin (a - b)
  simp [add, neg, sub_eq_add_neg]

@[simp] theorem fin_mul_fin (a b : ℚ) : fin a * fin b = fin (a * b) := rfl

theorem fin_div_fin (a b : ℚ) (hb : b ≠ 0) : fin a / fin b = fin (a / b) := by
  show div (fin a) (fin b) = fin (a / b)
  simp [div, hb]

@[simp] theorem ltb_fin_fin (a b : ℚ) : ltb (fin a) (fin b) = decide (a < b) := rfl

@[simp] theorem gtb_fin_fin (a b : ℚ) : gtb (fin a) (fin b) = decide (b < a) := rfl

end JSNum

/-- A parsed GPX track point (`GPXPoint` in the source): latitude and
longitude in degrees, optional elevation in meters, optional timestamp
in epoch milliseconds (`Date.getTime()`). -/
structure GPXPoint where
  lat : ℚ
  lng : ℚ
  elevation : Option ℚ := none
  timestamp : Option ℤ := none
deriving DecidableEq, Repr, Inhabited

/-- Geographic bounding box (the `bounds` field of `TrackData`). -/
structure GeoBounds where
  north : ℚ
  south : ℚ
  east : ℚ
  west : ℚ
deriving DecidableEq, Repr, Inhabited

/-- Error taxonomy of the conversion core; the source throws a plain
`Error` with a message when a GPX file has no track points, which the
spec names `EmptyTrackError`. -/
inductive GpxError where
  | emptyTrack : GpxError
deriving DecidableEq, Repr

/-- Bounds computation of `parseGPXFile`: throws when there are no
track points, otherwise `north/south` are `Math.max/Math.min` over all
latitudes and `east/west` over all longitudes. -/
def computeBounds : List GPXPoint → Except GpxError GeoBounds
  | [] => .error .emptyTrack
  | p :: rest =>
      .ok { north := (rest.map (·.lat)).foldl max p.lat
            south := (rest.map (·.lat)).foldl min p.lat
            east := (rest.map (·.lng)).foldl max p.lng
            west := (rest.map (·.lng)).foldl min p.lng }

/-- The elevation-gain loop of `parseGPXFile`:
`for (let i = 1; i < points.length; i++) { const prev = points[i-1].elevation || 0;
const curr = points[i].elevation || 0; if (curr > prev) elevationGain += curr - prev; }`.
A missing elevation is coerced to `0` by `|| 0`. -/
def elevationGainRaw (points : List GPXPoint) : ℚ :=
  (List.range' 1 (points.length - 1)).foldl
    (fun acc i =>
      let prev := ((points.getD (i - 1) default).elevation).getD 0
      let curr := ((points.getD i default).elevation).getD 0
      if prev < curr then acc + (curr - prev) else acc)
    0

/-- The elevation-gain metadata field of `parseGPXFile`: the loop above
runs only when some point carries an elevation, and the metadata stores
`elevationGain > 0 ? elevationGain : undefined`. -/
def elevationGainMeta (points : List GPXPoint) : Option ℚ :=
  let g := if points.any (fun p => p.elevation.isSome) then elevationGainRaw points else 0
  if 0 < g then some g else none

/-- `points.find(p => p.timestamp)?.timestamp` of `parseGPXFile`. -/
def firstTimestamp (points : List GPXPoint) : Option ℤ :=
  (points.find? (fun p => p.timestamp.isSome)).bind (·.timestamp)

/-- `points.slice().reverse().find(p => p.timestamp)?.timestamp`. -/
def lastTimestamp (points : List GPXPoint) : Option ℤ :=
  (points.reverse.find? (fun p => p.timestamp.isSome)).bind (·.timestamp)

/-- The duration metadata of `parseGPXFile`:
`if (firstTime && lastTime) duration = lastTime.getTime() - firstTime.getTime()`. -/
def durationMeta (points : List GPXPoint) : Option ℤ :=
  match firstTimestamp points, lastTimestamp points with
  | some f, some l => some (l - f)
  | _, _ => none

theorem foldl_add_map {α : Type} (g : α → ℚ) :
    ∀ (l : List α) (a : ℚ), l.foldl (fun acc i => acc + g i) a = a + (l.map g).sum
  | [], a => by simp
  | x :: l, a => by
      simp only [List.foldl_cons, List.map_cons, List.sum_cons, foldl_add_map g l]
      ring

theorem elevationGainRaw_step (points : List GPXPoint) :
    (fun (acc : ℚ) (i : Nat) =>
      let prev := ((points.getD (i - 1) default).elevation).getD 0
      let curr := ((points.getD i default).elevation).getD 0
      if prev < curr then acc + (curr - prev) else acc) =
    fun (acc : ℚ) (i : Nat) =>
      acc + max 0 (((points.getD i default).elevation).getD 0 -
                   ((points.getD (i - 1) default).elevation).getD 0) := by
  funext acc i
  dsimp only
  rcases lt_or_ge (((points.getD (i - 1) default).elevation).getD 0)
    (((points.getD i default).elevation).getD 0) with h | h
  · rw [if_pos h, max_eq_right (by linarith)]
  · rw [if_neg (not_lt.mpr h), max_eq_left (by linarith), add_zero]

theorem gain_indices_eq_zip :
    ∀ (points : List GPXPoint),
      (List.range' 1 (points.length - 1)).map
        (fun i => max 0 (((points.getD i default).elevation).getD 0 -
                         ((points.getD (i - 1) default).elevation).getD 0)) =
      (points.zip points.tail).map
        (fun ab => max 0 ((ab.2.elevation.getD 0) - (ab.1.elevation.getD 0)))
  | [] => by simp
  | [p] => by simp
  | p :: q :: rest => by
      have hlen : (p :: q :: rest).length - 1 = rest.length + 1 := by
        simp [List.length_cons]
      rw [hlen, List.range'_succ]
      have hshift :
          (List.range' 2 rest.length).map
            (fun i => max 0 ((((p :: q :: rest).getD i default).elevation).getD 0 -
                             (((p :: q :: rest).getD (i - 1) default).elevation).getD 0)) =
          (List.range' 1 ((q :: rest).length - 1)).map
            (fun i => max 0 ((((q :: rest).getD i default).elevation).getD 0 -
                             (((q :: rest).getD (i - 1) default).elevation).getD 0)) := by
        have h1 : (q :: rest).length - 1 = rest.length := by simp
        rw [h1, List.range'_eq_map_range, List.range'_eq_map_range, List.map_map,
          List.map_map]
        apply List.map_congr_left
        intro j _
        have e2 : 2 + j = (j + 1) + 1 := by omega
        have e1 : 1 + j = j + 1 := by omega
        have e2' : (2 + j) - 1 = j + 1 := by omega
        have e1' : (1 + j) - 1 = j := by omega
        simp only [Function.comp_apply, e2, e1, e2', e1', Nat.add_sub_cancel,
          List.getD_cons_succ]
      rw [List.map_cons, hshift, gain_indices_eq_zip (q :: rest)]
      simp [List.zip_cons_cons]

theorem elevationGainRaw_eq_pairs (points : List GPXPoint) :
    elevationGainRaw points =
      ((points.zip points.tail).map
        (fun ab => max 0 ((ab.2.elevation.getD 0) - (ab.1.elevation.getD 0)))).sum := by
  unfold elevationGainRaw
  rw [elevationGainRaw_step, foldl_add_map, zero_add, gain_indices_eq_zip]

theorem elevationGainRaw_zero_of_no_elevation (points : List GPXPoint)
    (h : points.any (fun p => p.elevation.isSome) = false) :
    elevationGainRaw points = 0 := by
  rw [elevationGainRaw_eq_pairs]
  apply List.sum_eq_zero
  intro x hx
  rcases List.mem_map.mp hx with ⟨⟨a, b⟩, hab, rfl⟩
  rcases List.of_mem_zip hab with ⟨ha, hb⟩
  have hb' : b ∈ points := (List.tail_sublist points).mem hb
  have hna := List.any_eq_false.mp h
  have ea : a.elevation = none := by
    rcases hh : a.elevation with _ | v
    · rfl
    · have := hna a ha; simp [hh] at this
  have eb : b.elevation = none := by
    rcases hh : b.elevation with _ | v
    · rfl
    · have := hna b hb'; simp [hh] at this
  simp [ea, eb]

/-- Claim C1, counterexample.  The claim says a consecutive pair in
which either sample lacks elevation contributes no gain and that the
delta is never computed against a substituted value.  In the source the
loop coerces a missing elevation to `0` (`points[i].elevation || 0`),
so the pair (no elevation, elevation 5) contributes `5 - 0 = 5` and the
reported gain of this two-point track is `5`, not absent/zero. -/
theorem c1_missing_elevation_bridged_counterexample :
    elevationGainMeta [⟨0, 0, none, none⟩, ⟨0, 0, some 5, none⟩] = some 5 := by
  simp [elevationGainMeta, elevationGainRaw, List.range']

/-- Claim C1, amended: elevation gain is accumulated over every
temporally-consecutive pair with a missing elevation coerced to `0`, so
a pair in which a sample lacks elevation has its delta computed against
the substituted value `0`; the total equals the sum over consecutive
pairs of `max 0 (curr - prev)` on the coerced elevations. -/
theorem c1_elevation_gain_substitutes_zero (points : List GPXPoint) :
    elevationGainRaw points =
      ((points.zip points.tail).map
        (fun ab => max 0 ((ab.2.elevation.getD 0) - (ab.1.elevation.getD 0)))).sum :=
  elevationGainRaw_eq_pairs points

/-- Claim C6, counterexample.  A flat track whose samples all carry
elevation accumulates gain `0`, and the source stores
`elevationGain > 0 ? elevationGain : undefined`, so the metric is
absent even though samples carry elevation — the claim says zero gain
is reported as present-and-zero. -/
theorem c6_zero_gain_reported_absent :
    elevationGainMeta [⟨0, 0, some 7, none⟩, ⟨0, 0, some 7, none⟩] = none ∧
    ([⟨0, 0, some 7, none⟩, ⟨0, 0, some 7, none⟩] : List GPXPoint).any
      (fun p => p.elevation.isSome) = true := by
  refine ⟨?_, by simp⟩
  simp [elevationGainMeta, elevationGainRaw, List.range']

/-- Claim C6, amended: the elevation-gain metric is present exactly
when the accumulated gain is strictly positive (and then equals it);
zero accumulated gain — in particular every track without elevations —
is reported as absent, never as present-and-zero. -/
theorem c6_elevation_gain_presence (points : List GPXPoint) (x : ℚ) :
    elevationGainMeta points = some x ↔
      x = elevationGainRaw points ∧ 0 < elevationGainRaw points := by
  rw [elevationGainMeta]
  rcases hany : points.any (fun p => p.elevation.isSome) with _ | _
  · have h0 := elevationGainRaw_zero_of_no_elevation points hany
    simp [h0]
  · simp only [hany, eq_self_iff_true, if_true]
    rcases lt_or_ge 0 (elevationGainRaw points) with h | h
    · rw [if_pos h]
      constructor
      · intro he
        exact ⟨(Option.some_inj.mp he).symm, h⟩
      · rintro ⟨rfl, _⟩
        rfl
    · rw [if_neg (not_lt.mpr h)]
      constructor
      · intro he
        exact absurd he (by simp)
      · rintro ⟨_, hpos⟩
        exact absurd hpos (not_lt.mpr h)

/-- Claim C7, counterexample.  For a track with exactly one timestamped
sample, `points.find(...)` and the reversed scan find the same sample,
`firstTime && lastTime` is truthy (Date objects are always truthy), and
the duration metric is stored as `0` — present, not absent as the
claim requires for fewer than two timestamped samples. -/
theorem c7_single_timestamp_duration_present :
    durationMeta [⟨0, 0, none, some 100⟩] = some 0 ∧
    ([⟨0, 0, none, some 100⟩] : List GPXPoint).countP
      (fun p => p.timestamp.isSome) = 1 := by
  constructor
  · simp [durationMeta, firstTimestamp, lastTimestamp]
  · simp [List.countP_cons]

theorem firstTimestamp_isSome (points : List GPXPoint) :
    (firstTimestamp points).isSome = true ↔ ∃ p ∈ points, p.timestamp.isSome = true := by
  unfold firstTimestamp
  rcases hf : points.find? (fun p => p.timestamp.isSome) with _ | p
  · simp only [hf, Option.none_bind, Option.isSome_none, Bool.false_eq_true, false_iff]
    intro ⟨p, hp, hts⟩
    have := (@List.find?_isSome GPXPoint points
      (fun q => q.timestamp.isSome)).mpr ⟨p, hp, by simpa using hts⟩
    rw [hf] at this
    simp at this
  · have hts := List.find?_some hf
    have hmem := List.mem_of_find?_eq_some hf
    rcases ht : p.timestamp with _ | t
    · rw [ht] at hts; simp at hts
    · simp only [hf, Option.some_bind, ht, Option.isSome_some, true_iff]
      exact ⟨p, hmem, by simp [ht]⟩

theorem lastTimestamp_isSome (points : List GPXPoint) :
    (lastTimestamp points).isSome = true ↔ ∃ p ∈ points, p.timestamp.isSome = true := by
  unfold lastTimestamp
  rcases hf : points.reverse.find? (fun p => p.timestamp.isSome) with _ | p
  · simp only [hf, Option.none_bind, Option.isSome_none, Bool.false_eq_true, false_iff]
    intro ⟨p, hp, hts⟩
    have := (@List.find?_isSome GPXPoint points.reverse
      (fun q => q.timestamp.isSome)).mpr ⟨p, List.mem_reverse.mpr hp, by simpa using hts⟩
    rw [hf] at this
    simp at this
  · have hts := List.find?_some hf
    have hmem := List.mem_reverse.mp (List.mem_of_find?_eq_some hf)
    rcases ht : p.timestamp with _ | t
    · rw [ht] at hts; simp at hts
    · simp only [hf, Option.some_bind, ht, Option.isSome_some, true_iff]
      exact ⟨p, hmem, by simp [ht]⟩

/-- Claim C7, amended: the duration metric equals the timestamp of the
last timestamped sample minus the timestamp of the first timestamped
sample, scanning in original order; it is present exactly when at
least one sample carries a timestamp — in particular a single
timestamped sample yields a present duration of `0`, and the metric is
absent only when no sample carries a timestamp. -/
theorem c7_duration_last_minus_first (points : List GPXPoint) :
    ((durationMeta points).isSome = true ↔ ∃ p ∈ points, p.timestamp.isSome = true) ∧
    (∀ f l : ℤ, firstTimestamp points = some f → lastTimestamp points = some l →
      durationMeta points = some (l - f)) := by
  constructor
  · unfold durationMeta
    rcases hF : firstTimestamp points with _ | f
    · have : ¬ ∃ p ∈ points, p.timestamp.isSome = true := by
        intro hex
        have := (firstTimestamp_isSome points).mpr hex
        rw [hF] at this
        simp at this
      simp only [Option.isSome_none, Bool.false_eq_true, false_iff]
      exact this
    · rcases hL : lastTimestamp points with _ | l
      · have hex := (firstTimestamp_isSome points).mp (by rw [hF]; rfl)
        have := (lastTimestamp_isSome points).mpr hex
        rw [hL] at this
        simp at this
      · simp only [Option.isSome_some, true_iff]
        exact (firstTimestamp_isSome points).mp (by rw [hF]; rfl)
  · intro f l hF hL
    unfold durationMeta
    rw [hF, hL]

theorem c7_duration_last_minus_first_witness :
    durationMeta [⟨0, 0, none, some 3⟩, ⟨0, 0, none, some 10⟩] = some 7 := by
  have h := (c7_duration_last_minus_first
    [⟨0, 0, none, some 3⟩, ⟨0, 0, none, some 10⟩]).2 3 10
    (by simp [firstTimestamp]) (by simp [lastTimestamp])
  simpa using h

theorem foldl_max_le_init : ∀ (l : List ℚ) (a : ℚ), a ≤ l.foldl max a
  | [], _ => le_refl _
  | x :: t, a => le_trans (le_max_left a x) (foldl_max_le_init t (max a x))

theorem mem_le_foldl_max : ∀ (l : List ℚ) (a x : ℚ), x ∈ l → x ≤ l.foldl max a
  | [], _, _, hx => absurd hx (List.not_mem_nil _)
  | y :: t, a, x, hx => by
      rcases List.mem_cons.mp hx with h | h
      · subst h
        exact le_trans (le_max_right a x) (foldl_max_le_init t (max a x))
      · exact mem_le_foldl_max t (max a y) x h

theorem foldl_max_mem : ∀ (l : List ℚ) (a : ℚ), l.foldl max a = a ∨ l.foldl max a ∈ l
  | [], _ => Or.inl rfl
  | y :: t, a => by
      rcases foldl_max_mem t (max a y) with h | h
      · rcases le_total a y with hay | hya
        · right
          rw [List.foldl_cons, h, max_eq_right hay]
          exact List.mem_cons_self y t
        · left
          rw [List.foldl_cons, h, max_eq_left hya]
      · right
        exact List.mem_cons_of_mem y h

theorem foldl_min_le_init : ∀ (l : List ℚ) (a : ℚ), l.foldl min a ≤ a
  | [], _ => le_refl _
  | x :: t, a => le_trans (foldl_min_le_init t (min a x)) (min_le_left a x)

theorem foldl_min_le_mem : ∀ (l : List ℚ) (a x : ℚ), x ∈ l → l.foldl min a ≤ x
  | [], _, _, hx => absurd hx (List.not_mem_nil _)
  | y :: t, a, x, hx => by
      rcases List.mem_cons.mp hx with h | h
      · subst h
        exact le_trans (foldl_min_le_init t (min a x)) (min_le_right a x)
      · exact foldl_min_le_mem t (min a y) x h

theorem foldl_min_mem : ∀ (l : List ℚ) (a : ℚ), l.foldl min a = a ∨ l.foldl min a ∈ l
  | [], _ => Or.inl rfl
  | y :: t, a => by
      rcases foldl_min_mem t (min a y) with h | h
      · rcases le_total a y with hay | hya
        · left
          rw [List.foldl_cons, h, min_eq_left hay]
        · right
          rw [List.foldl_cons, h, min_eq_right hya]
          exact List.mem_cons_self y t
      · right
        exact List.mem_cons_of_mem y h

/-- Claim C3: bounds computation fails with `EmptyTrackError` exactly
on the empty point sequence; on every non-empty sequence it succeeds
with `north`/`south` the maximum/minimum latitude and `east`/`west`
the maximum/minimum longitude (each an attained extremum). -/
theorem c3_compute_bounds (points : List GPXPoint) :
    (points = [] → computeBounds points = .error .emptyTrack) ∧
    (points ≠ [] → ∃ b : GeoBounds, computeBounds points = .ok b) ∧
    (∀ b : GeoBounds, computeBounds points = .ok b →
      (∀ p ∈ points, p.lat ≤ b.north ∧ b.south ≤ p.lat ∧
        p.lng ≤ b.east ∧ b.west ≤ p.lng) ∧
      b.north ∈ points.map (·.lat) ∧ b.south ∈ points.map (·.lat) ∧
      b.east ∈ points.map (·.lng) ∧ b.west ∈ points.map (·.lng)) := by
  rcases points with _ | ⟨p, rest⟩
  · refine ⟨fun _ => rfl, fun h => absurd rfl h, fun b hb => ?_⟩
    exact absurd hb (by simp [computeBounds])
  · refine ⟨fun h => by simp at h, fun _ => ⟨_, rfl⟩, fun b hb => ?_⟩
    have hb' : b = { north := (rest.map (·.lat)).foldl max p.lat
                     south := (rest.map (·.lat)).foldl min p.lat
                     east := (rest.map (·.lng)).foldl max p.lng
                     west := (rest.map (·.lng)).foldl min p.lng } := by
      have := hb
      rw [computeBounds] at this
      exact (Except.ok.injEq _ _ ▸ congrArg id this) ▸ (Except.ok.inj this).symm
    subst hb'
    constructor
    · intro q hq
      rcases List.mem_cons.mp hq with h | h
      · subst h
        exact ⟨foldl_max_le_init _ _, foldl_min_le_init _ _,
          foldl_max_le_init _ _, foldl_min_le_init _ _⟩
      · exact ⟨mem_le_foldl_max _ _ _ (List.mem_map_of_mem (·.lat) h),
          foldl_min_le_mem _ _ _ (List.mem_map_of_mem (·.lat) h),
          mem_le_foldl_max _ _ _ (List.mem_map_of_mem (·.lng) h),
          foldl_min_le_mem _ _ _ (List.mem_map_of_mem (·.lng) h)⟩
    · have hmap : (p :: rest).map (·.lat) = p.lat :: rest.map (·.lat) := rfl
      have hmap' : (p :: rest).map (·.lng) = p.lng :: rest.map (·.lng) := rfl
      rw [hmap, hmap']
      refine ⟨?_, ?_, ?_, ?_⟩
      · rcases foldl_max_mem (rest.map (·.lat)) p.lat with h | h
        · rw [h]; exact List.mem_cons_self _ _
        · exact List.mem_cons_of_mem _ h
      · rcases foldl_min_mem (rest.map (·.lat)) p.lat with h | h
        · rw [h]; exact List.mem_cons_self _ _
        · exact List.mem_cons_of_mem _ h
      · rcases foldl_max_mem (rest.map (·.lng)) p.lng with h | h
        · rw [h]; exact List.mem_cons_self _ _
        · exact List.mem_cons_of_mem _ h
      · rcases foldl_min_mem (rest.map (·.lng)) p.lng with h | h
        · rw [h]; exact List.mem_cons_self _ _
        · exact List.mem_cons_of_mem _ h

theorem c3_compute_bounds_witness :
    computeBounds ([] : List GPXPoint) = .error .emptyTrack ∧
    (3 : ℚ) ∈ ([⟨1, 2, none, none⟩, ⟨3, 1, none, none⟩] : List GPXPoint).map (·.lat) :=
  ⟨(c3_compute_bounds []).1 rfl,
   by
    have h := ((c3_compute_bounds [⟨1, 2, none, none⟩, ⟨3, 1, none, none⟩]).2.2
      ⟨3, 1, 2, 1⟩ (by simp [computeBounds])).2.1
    simp only [List.map_cons, List.map_nil] at h
    exact h⟩

/-- `CoordinateTransform.calculateOptimalDimensions` of the source.
`cosF` stands for `lat => Math.cos(lat * Math.PI / 180)`.  The
intermediate quantities up to `aspect` are finite; the two divisions
and the final `Math.round` follow JS number semantics, so a zero
latitude span yields NaN or an infinity exactly as the source does.
Returns the pair `(width, height)`. -/
def calculateOptimalDimensions (cosF : ℚ → ℚ) (bounds : GeoBounds)
    (maxWidth maxHeight : ℚ) : JSNum × JSNum :=
  let latRange := bounds.north - bounds.south
  let lngRange := bounds.east - bounds.west
  let centerLat := (bounds.north + bounds.south) / 2
  let latCompressionFactor := cosF centerLat
  let adjustedLngRange := lngRange * latCompressionFactor
  let aspect : JSNum := JSNum.fin adjustedLngRange / JSNum.fin latRange
  let width : JSNum := JSNum.fin maxWidth
  let height : JSNum := JSNum.fin maxWidth / aspect
  if JSNum.gtb height (JSNum.fin maxHeight) then
    (JSNum.round (JSNum.fin maxHeight * aspect), JSNum.round (JSNum.fin maxHeight))
  else
    (JSNum.round width, JSNum.round height)

/-- `CoordinateTransform.gpsToSVG` of the source, for a transform
constructed with the given bounds, canvas width/height and padding
fraction.  Returns the planar pair `(x, y)`; the y axis is flipped.
The two normalizations divide by the padded spans, so a zero span
yields NaN coordinates exactly as the source does. -/
def gpsToSVG (bounds : GeoBounds) (width height : JSNum) (padding : ℚ)
    (lat lng : ℚ) : JSNum × JSNum :=
  let latRange := bounds.north - bounds.south
  let lngRange := bounds.east - bounds.west
  let paddedLatRange := latRange * (1 + padding * 2)
  let paddedLngRange := lngRange * (1 + padding * 2)
  let paddedSouth := bounds.south - latRange * padding
  let paddedWest := bounds.west - lngRange * padding
  let normalizedX : JSNum := JSNum.fin (lng - paddedWest) / JSNum.fin paddedLngRange
  let normalizedY : JSNum := JSNum.fin (lat - paddedSouth) / JSNum.fin paddedLatRange
  (normalizedX * width, (JSNum.fin 1 - normalizedY) * height)

@[simp] theorem JSNum.add_def (a b : JSNum) : a + b = JSNum.add a b := rfl

@[simp] theorem JSNum.sub_def (a b : JSNum) : a - b = JSNum.sub a b := rfl

@[simp] theorem JSNum.mul_def (a b : JSNum) : a * b = JSNum.mul a b := rfl

@[simp] theorem JSNum.div_def (a b : JSNum) : a / b = JSNum.div a b := rfl

@[simp] theorem JSNum.neg_def (a : JSNum) : -a = JSNum.neg a := rfl

/-- Claim C2, code evaluation at the failing input.  For the
single-point track at (10, 20) the bounds collapse to a point; the
source computes `aspectRatio = 0/0 = NaN` and `height = maxWidth/NaN =
NaN`, so the canvas is `(800, NaN)` rather than the claimed 1:1
fallback, and `gpsToSVG` divides `0/0`, projecting the point to
`(NaN, NaN)` rather than the canvas center.  This holds for every
value of the cosine factor. -/
theorem c2_degenerate_bounds_produce_nan (cosF : ℚ → ℚ) :
    calculateOptimalDimensions cosF ⟨10, 10, 20, 20⟩ 800 600 =
      (JSNum.fin 800, JSNum.nan) ∧
    gpsToSVG ⟨10, 10, 20, 20⟩ (JSNum.fin 800) JSNum.nan (1/10) 10 20 =
      (JSNum.nan, JSNum.nan) := by
  constructor
  · rw [calculateOptimalDimensions]
    norm_num [JSNum.div, JSNum.mul, JSNum.gtb, JSNum.ltb, JSNum.round]
  · rw [gpsToSVG]
    norm_num [JSNum.div, JSNum.mul, JSNum.sub, JSNum.add, JSNum.neg]

/-- Claim C5, counterexample.  For a very wide track (latitude span
`1/1000` degree centered on the equator, longitude span `10` degrees,
so the cosine factor is `cos 0 = 1` and the aspect ratio is `10000`),
the first branch keeps `width = 800` and computes `height = 800/10000
= 0.08`, and `Math.round` with no lower clamp yields a height of `0` —
the claim says both final dimensions are `≥ 1`. -/
theorem c5_height_rounds_to_zero :
    calculateOptimalDimensions (fun _ => 1) ⟨1/2000, -(1/2000), 10, 0⟩ 800 600 =
      (JSNum.fin 800, JSNum.fin 0) := by
  rw [calculateOptimalDimensions]
  norm_num [JSNum.div, JSNum.mul, JSNum.gtb, JSNum.ltb, JSNum.round,
    Int.floor_eq_iff, show ((800:ℚ)/10000) = 2/25 by norm_num]

theorem floor_half_lemma : (⌊(1:ℚ)/2⌋ : ℤ) = 0 := by
  norm_num [Int.floor_eq_iff]

theorem floor_intCast_add_half (n : ℤ) : ⌊(n : ℚ) + 1/2⌋ = n := by
  rw [Int.floor_int_add, floor_half_lemma, add_zero]

/-- Claim C5, amended: for bounds with positive latitude span,
`east ≥ west`, a nonnegative latitude-compression factor (true of
`cos` on real latitudes) and positive integer pixel budgets, the
canvas starts from `width = maxWidth`, `height = width/aspectRatio`,
rescales to `height = maxHeight`, `width = height * aspectRatio` when
the height exceeds `maxHeight`, and both final dimensions are rounded
to the nearest integer with NO lower clamp (a rounded dimension can be
`0`); the results satisfy `width ≤ maxWidth`, `height ≤ maxHeight`
and equality on at least one dimension. -/
theorem c5_canvas_within_budget (cosF : ℚ → ℚ) (bounds : GeoBounds) (W H : ℤ)
    (hlat : bounds.south < bounds.north) (hlng : bounds.west ≤ bounds.east)
    (hcos : 0 ≤ cosF ((bounds.north + bounds.south) / 2))
    (hW : 0 < W) (hH : 0 < H) :
    ∃ w h : ℤ, calculateOptimalDimensions cosF bounds (W : ℚ) (H : ℚ) =
        (JSNum.fin (w : ℚ), JSNum.fin (h : ℚ)) ∧
      w ≤ W ∧ h ≤ H ∧ (w = W ∨ h = H) := by
  have hlatR0 : (0:ℚ) < bounds.north - bounds.south := by linarith
  have hadj0 : (0:ℚ) ≤ (bounds.east - bounds.west) *
      cosF ((bounds.north + bounds.south) / 2) :=
    mul_nonneg (by linarith) hcos
  have hW0 : (0:ℚ) < (W:ℚ) := by exact_mod_cast hW
  have hH0 : (0:ℚ) < (H:ℚ) := by exact_mod_cast hH
  simp only [calculateOptimalDimensions]
  rw [JSNum.fin_div_fin _ _ (ne_of_gt hlatR0)]
  set aq := ((bounds.east - bounds.west) * cosF ((bounds.north + bounds.south) / 2)) /
    (bounds.north - bounds.south) with haq
  have haq0 : 0 ≤ aq := div_nonneg hadj0 (le_of_lt hlatR0)
  rcases eq_or_lt_of_le haq0 with hz | hpos
  · -- zero aspect ratio: height is +Infinity, rescale branch, width 0
    have hdiv : JSNum.fin (W:ℚ) / JSNum.fin aq = JSNum.posInf := by
      rw [← hz]
      show JSNum.div _ _ = _
      simp [JSNum.div, ne_of_gt hW0, hW0]
    rw [hdiv]
    have hgtb : JSNum.gtb JSNum.posInf (JSNum.fin (H:ℚ)) = true := rfl
    rw [hgtb, if_pos rfl]
    refine ⟨0, H, ?_, by omega, le_refl H, Or.inr rfl⟩
    rw [← hz]
    simp only [JSNum.mul_def, JSNum.mul, mul_zero, JSNum.round]
    rw [floor_intCast_add_half]
    norm_num [Int.floor_eq_iff]
  · -- positive aspect ratio: height is W/aq, compare with H
    rw [JSNum.fin_div_fin _ _ (ne_of_gt hpos)]
    by_cases hcmp : (H:ℚ) < (W:ℚ) / aq
    · rw [if_pos (by simp [hcmp])]
      refine ⟨⌊(H:ℚ) * aq + 1/2⌋, H, ?_, ?_, le_refl H, Or.inr rfl⟩
      · simp only [JSNum.mul_def, JSNum.mul, JSNum.round, floor_intCast_add_half]
      · have hWa : (H:ℚ) * aq < (W:ℚ) := (lt_div_iff₀ hpos).mp hcmp
        have : ⌊(H:ℚ) * aq + 1/2⌋ ≤ ⌊(W:ℚ) + 1/2⌋ :=
          Int.floor_le_floor (by linarith)
        rwa [floor_intCast_add_half] at this
    · rw [if_neg (by simp [hcmp])]
      refine ⟨W, ⌊(W:ℚ) / aq + 1/2⌋, ?_, le_refl W, ?_, Or.inl rfl⟩
      · simp only [JSNum.round, floor_intCast_add_half]
      · have hWa : (W:ℚ) / aq ≤ (H:ℚ) := not_lt.mp hcmp
        have : ⌊(W:ℚ) / aq + 1/2⌋ ≤ ⌊(H:ℚ) + 1/2⌋ :=
          Int.floor_le_floor (by linarith)
        rwa [floor_intCast_add_half] at this

theorem c5_canvas_within_budget_witness :
    ∃ w h : ℤ, calculateOptimalDimensions (fun _ => 1) ⟨1, 0, 1, 0⟩
        ((800:ℤ) : ℚ) ((600:ℤ) : ℚ) = (JSNum.fin (w : ℚ), JSNum.fin (h : ℚ)) ∧
      w ≤ 800 ∧ h ≤ 600 ∧ (w = 800 ∨ h = 600) :=
  c5_canvas_within_budget (fun _ => 1) ⟨1, 0, 1, 0⟩ 800 600
    (by norm_num) (by norm_num) (by norm_num) (by norm_num) (by norm_num)

/-- A projected planar point as built in `TrackToSVGConverter.convert`:
`{ x, y, original }` with a back-reference to the source sample. -/
structure SVGPoint where
  x : JSNum
  y : JSNum
  original : GPXPoint := default
deriving DecidableEq, Repr, Inhabited

/-- `TrackToSVGConverter.pointToLineDistance`: distance from `point`
to the segment `lineStart`-`lineEnd`, with the projection parameter
defaulting to `-1` when the squared segment length is `0` (JS
`lenSq !== 0` guard), then clamped through the three branches. -/
def pointToLineDistance (sq : ℚ → ℚ) (point lineStart lineEnd : SVGPoint) : JSNum :=
  let A := lineEnd.x - lineStart.x
  let B := lineEnd.y - lineStart.y
  let C := lineStart.x - point.x
  let D := lineStart.y - point.y
  let dot := A * C + B * D
  let lenSq := A * A + B * B
  let param := if lenSq ≠ JSNum.fin 0 then dot / lenSq else JSNum.fin (-1)
  let xy :=
    if JSNum.ltb param (JSNum.fin 0) then (lineStart.x, lineStart.y)
    else if JSNum.gtb param (JSNum.fin 1) then (lineEnd.x, lineEnd.y)
    else (lineStart.x + param * A, lineStart.y + param * B)
  let dx := point.x - xy.1
  let dy := point.y - xy.2
  JSNum.jsqrt sq (dx * dx + dy * dy)

/-- The farthest-interior-point loop of
`TrackToSVGConverter.simplifyPath`: scans indices `1 ≤ i ≤ length - 2`,
keeping the first index whose distance to the start-end segment
strictly exceeds the running maximum (initially `0`, index `0`).
Returns `(maxDistance, maxIndex)`. -/
def findFarthest (sq : ℚ → ℚ) (points : List SVGPoint) : JSNum × Nat :=
  let start := points.headD default
  let stop := points.getLastD default
  (List.range' 1 (points.length - 1 - 1)).foldl
    (fun md i =>
      let distance := pointToLineDistance sq (points.getD i default) start stop
      if JSNum.gtb distance md.1 then (distance, i) else md)
    (JSNum.fin 0, 0)

/-- `TrackToSVGConverter.simplifyPath` (Douglas-Peucker), embedded with
an explicit recursion budget: the source recursion consumes a strictly
shorter list on both sides whenever `maxIndex ≥ 1`, but for a negative
tolerance `maxIndex` can stay `0` and the JS recursion then never
terminates (`points.slice(0)` is the whole list); `none` models that
divergence.  `simplifyPath` below supplies a budget sufficient for
every terminating run. -/
def simplifyPathF (sq : ℚ → ℚ) : Nat → List SVGPoint → ℚ → Option (List SVGPoint)
  | 0, _, _ => none
  | fuel + 1, points, tolerance =>
      if points.length ≤ 2 then some points
      else
        let start := points.headD default
        let stop := points.getLastD default
        let md := findFarthest sq points
        if JSNum.gtb md.1 (JSNum.fin tolerance) then
          match simplifyPathF sq fuel (points.take (md.2 + 1)) tolerance,
                simplifyPathF sq fuel (points.drop md.2) tolerance with
          | some leftPart, some rightPart => some (leftPart.dropLast ++ rightPart)
          | _, _ => none
        else
          some [start, stop]

/-- `TrackToSVGConverter.simplifyPath` at the top level: the recursion
depth of a terminating run is below `length + 1`. -/
def simplifyPath (sq : ℚ → ℚ) (points : List SVGPoint) (tolerance : ℚ) :
    Option (List SVGPoint) :=
  simplifyPathF sq (points.length + 1) points tolerance

@[simp] theorem JSNum.add_fin_fin (a b : ℚ) :
    JSNum.add (JSNum.fin a) (JSNum.fin b) = JSNum.fin (a + b) := rfl

@[simp] theorem JSNum.neg_fin (a : ℚ) : JSNum.neg (JSNum.fin a) = JSNum.fin (-a) := rfl

@[simp] theorem JSNum.sub_fin_fin (a b : ℚ) :
    JSNum.sub (JSNum.fin a) (JSNum.fin b) = JSNum.fin (a - b) := by
  show JSNum.add (JSNum.fin a) (JSNum.neg (JSNum.fin b)) = _
  rw [JSNum.neg_fin, JSNum.add_fin_fin, sub_eq_add_neg]

@[simp] theorem JSNum.mul_fin_fin (a b : ℚ) :
    JSNum.mul (JSNum.fin a) (JSNum.fin b) = JSNum.fin (a * b) := rfl

theorem JSNum.div_fin_fin (a b : ℚ) (hb : b ≠ 0) :
    JSNum.div (JSNum.fin a) (JSNum.fin b) = JSNum.fin (a / b) := by
  simp [JSNum.div, hb]

theorem JSNum.jsqrt_fin_nonneg (sq : ℚ → ℚ) (q : ℚ) (h : 0 ≤ q) :
    JSNum.jsqrt sq (JSNum.fin q) = JSNum.fin (sq q) := by
  simp [JSNum.jsqrt, not_lt.mpr h]


@[simp] theorem JSNum.jsqrt_fin_sumsq (sq : ℚ → ℚ) (u v : ℚ) :
    JSNum.jsqrt sq (JSNum.fin (u * u + v * v)) = JSNum.fin (sq (u * u + v * v)) :=
  JSNum.jsqrt_fin_nonneg sq _ (add_nonneg (mul_self_nonneg u) (mul_self_nonneg v))


theorem JSNum.param_eval (d L : ℚ) :
    (if JSNum.fin L ≠ JSNum.fin 0 then JSNum.div (JSNum.fin d) (JSNum.fin L)
     else JSNum.fin (-1)) =
      JSNum.fin (if L = 0 then -1 else d / L) := by
  by_cases h : L = 0
  · rw [if_neg (by simp [h]), if_pos h]
  · rw [if_pos (by simp [h]), if_neg h]
    simp [JSNum.div, h]

theorem pointToLineDistance_fin_eval (sq : ℚ → ℚ) (px py sx sy ex ey P : ℚ)
    (g1 g2 g3 : GPXPoint)
    (hparam : (if JSNum.fin ((ex - sx) * (ex - sx) + (ey - sy) * (ey - sy)) ≠ JSNum.fin 0
        then JSNum.div (JSNum.fin ((ex - sx) * (sx - px) + (ey - sy) * (sy - py)))
          (JSNum.fin ((ex - sx) * (ex - sx) + (ey - sy) * (ey - sy)))
        else JSNum.fin (-1)) = JSNum.fin P) :
    pointToLineDistance sq ⟨JSNum.fin px, JSNum.fin py, g1⟩
        ⟨JSNum.fin sx, JSNum.fin sy, g2⟩ ⟨JSNum.fin ex, JSNum.fin ey, g3⟩ =
      if P < 0 then
        JSNum.jsqrt sq (JSNum.fin ((px - sx) * (px - sx) + (py - sy) * (py - sy)))
      else if 1 < P then
        JSNum.jsqrt sq (JSNum.fin ((px - ex) * (px - ex) + (py - ey) * (py - ey)))
      else
        JSNum.jsqrt sq (JSNum.fin
          ((px - (sx + P * (ex - sx))) * (px - (sx + P * (ex - sx))) +
           (py - (sy + P * (ey - sy))) * (py - (sy + P * (ey - sy))))) := by
  simp only [pointToLineDistance, JSNum.sub_def, JSNum.add_def, JSNum.mul_def,
    JSNum.div_def, JSNum.sub_fin_fin, JSNum.add_fin_fin, JSNum.mul_fin_fin]
  rw [hparam]
  by_cases hp0 : P < 0
  · rw [if_pos (by simp [hp0]), if_pos hp0]
    simp only [JSNum.sub_def, JSNum.sub_fin_fin, JSNum.mul_def, JSNum.mul_fin_fin,
      JSNum.add_def, JSNum.add_fin_fin]
  · by_cases hp1 : 1 < P
    · rw [if_neg (by simp [hp0]), if_pos (by simp [JSNum.gtb, hp1]), if_neg hp0,
        if_pos hp1]
      simp only [JSNum.sub_def, JSNum.sub_fin_fin, JSNum.mul_def, JSNum.mul_fin_fin,
        JSNum.add_def, JSNum.add_fin_fin]
    · rw [if_neg (by simp [hp0]), if_neg (by simp [JSNum.gtb, hp1]), if_neg hp0,
        if_neg hp1]
      simp only [JSNum.sub_def, JSNum.sub_fin_fin, JSNum.mul_def, JSNum.mul_fin_fin,
        JSNum.add_def, JSNum.add_fin_fin]

/-- Claim C10: the point-to-segment distance helper is total.  For
every finite point and segment it divides only under the `lenSq !== 0`
guard and returns the Euclidean distance (through `Math.sqrt`) from
the point to the clamped foot `start + t*(end - start)` for some
`t ∈ [0,1]` — the start when the projection parameter is below 0, the
end when above 1, the interpolated foot otherwise.  For the degenerate
segment whose start and end coincide the squared length is `0`, the
parameter stays `-1`, forcing the start branch, so the result is the
distance to the start (second conjunct). -/
theorem c10_point_to_line_distance_total (sq : ℚ → ℚ) (px py sx sy ex ey : ℚ) :
    (∃ t : ℚ, 0 ≤ t ∧ t ≤ 1 ∧
      pointToLineDistance sq ⟨JSNum.fin px, JSNum.fin py, default⟩
          ⟨JSNum.fin sx, JSNum.fin sy, default⟩ ⟨JSNum.fin ex, JSNum.fin ey, default⟩ =
        JSNum.fin (sq ((px - (sx + t * (ex - sx)))^2 + (py - (sy + t * (ey - sy)))^2))) ∧
    pointToLineDistance sq ⟨JSNum.fin px, JSNum.fin py, default⟩
        ⟨JSNum.fin sx, JSNum.fin sy, default⟩ ⟨JSNum.fin sx, JSNum.fin sy, default⟩ =
      JSNum.fin (sq ((px - sx)^2 + (py - sy)^2)) := by
  have sqrt_fold : ∀ u v : ℚ, JSNum.jsqrt sq (JSNum.fin (u * u + v * v)) =
      JSNum.fin (sq (u * u + v * v)) := fun u v =>
    JSNum.jsqrt_fin_nonneg sq _ (add_nonneg (mul_self_nonneg u) (mul_self_nonneg v))
  constructor
  · set P : ℚ := if (ex - sx) * (ex - sx) + (ey - sy) * (ey - sy) = 0 then (-1 : ℚ)
      else ((ex - sx) * (sx - px) + (ey - sy) * (sy - py)) /
        ((ex - sx) * (ex - sx) + (ey - sy) * (ey - sy)) with hP
    have heval := pointToLineDistance_fin_eval sq px py sx sy ex ey P
      default default default (by rw [JSNum.param_eval, ← hP])
    by_cases hp0 : P < 0
    · refine ⟨0, le_refl 0, by norm_num, ?_⟩
      rw [heval, if_pos hp0, sqrt_fold]
      congr 1
      ring_nf
    · by_cases hp1 : 1 < P
      · refine ⟨1, by norm_num, le_refl 1, ?_⟩
        rw [heval, if_neg hp0, if_pos hp1, sqrt_fold]
        congr 1
        ring_nf
      · refine ⟨P, not_lt.mp hp0, not_lt.mp hp1, ?_⟩
        rw [heval, if_neg hp0, if_neg hp1, sqrt_fold]
        congr 1
        ring_nf
  · have hz : (sx - sx) * (sx - sx) + (sy - sy) * (sy - sy) = 0 := by ring
    have heval := pointToLineDistance_fin_eval sq px py sx sy sx sy (-1)
      default default default (by rw [JSNum.param_eval, if_pos hz])
    rw [heval, if_pos (by norm_num), sqrt_fold]
    congr 1
    ring_nf

theorem foldl_invariant {α β : Type} (P : β → Prop) (f : β → α → β) (l : List α) (b : β)
    (hb : P b) (hf : ∀ acc a, a ∈ l → P acc → P (f acc a)) : P (l.foldl f b) := by
  induction l generalizing b with
  | nil => exact hb
  | cons x t ih =>
      exact ih (f b x) (hf b x (List.mem_cons_self x t) hb)
        (fun acc a ha hacc => hf acc a (List.mem_cons_of_mem x ha) hacc)

theorem findFarthest_index (sq : ℚ → ℚ) (points : List SVGPoint) :
    ((findFarthest sq points).1 = JSNum.fin 0 ∧ (findFarthest sq points).2 = 0) ∨
    (1 ≤ (findFarthest sq points).2 ∧
      (findFarthest sq points).2 < 1 + (points.length - 1 - 1)) := by
  simp only [findFarthest]
  apply foldl_invariant
    (fun md : JSNum × Nat => (md.1 = JSNum.fin 0 ∧ md.2 = 0) ∨
      (1 ≤ md.2 ∧ md.2 < 1 + (points.length - 1 - 1)))
  · exact Or.inl ⟨rfl, rfl⟩
  · intro acc i hi hacc
    dsimp only
    by_cases hgt : JSNum.gtb
        (pointToLineDistance sq (points.getD i default)
          (points.headD default) (points.getLastD default)) acc.1 = true
    · rw [if_pos hgt]
      right
      rcases List.mem_range'.mp hi with ⟨j, hj, rfl⟩
      omega
    · rw [if_neg hgt]
      exact hacc


theorem dropLast_sublist_of_concat {α : Type} {l xs : List α} {a : α}
    (h : l.Sublist (xs ++ [a])) : l.dropLast.Sublist xs := by
  rcases List.sublist_append_iff.mp h with ⟨l1, l2, rfl, h1, h2⟩
  cases l2 with
  | nil =>
      rw [List.append_nil]
      exact List.Sublist.trans (List.dropLast_sublist l1) h1
  | cons b t =>
      have hlen : t.length + 1 ≤ 1 := by simpa using h2.length_le
      have ht : t = [] := List.eq_nil_of_length_eq_zero (by omega)
      subst ht
      have hb : b = a := by
        have := h2.subset (List.mem_cons_self b [])
        simpa using this
      subst hb
      rw [List.dropLast_concat]
      exact h1

theorem head?_dropLast_of_two_le {α : Type} {l : List α} (h : 2 ≤ l.length) :
    l.dropLast.head? = l.head? := by
  match l, h with
  | a :: b :: t, _ => rfl

theorem getLast?_drop_of_lt {α : Type} :
    ∀ (l : List α) (n : Nat), n < l.length → (l.drop n).getLast? = l.getLast?
  | _, 0, _ => rfl
  | a :: t, n + 1, h => by
      rw [List.drop_succ_cons]
      have ht : t ≠ [] := by
        intro he
        subst he
        simp at h
      rw [getLast?_drop_of_lt t n (by simpa using h)]
      cases t with
      | nil => exact absurd rfl ht
      | cons b u => rw [List.getLast?_cons_cons]

theorem head?_take_of_pos {α : Type} (l : List α) (n : Nat) (h : 0 < n) :
    (l.take n).head? = l.head? := by
  match l, n, h with
  | [], n, _ => simp
  | a :: t, n + 1, _ => rfl

theorem headGetLast_sublist {α : Type} [Inhabited α] {l : List α} (h : 2 ≤ l.length) :
    [l.headD default, l.getLastD default].Sublist l := by
  match l, h with
  | a :: b :: t, _ =>
      show [a, (a :: b :: t).getLastD default].Sublist (a :: b :: t)
      apply List.Sublist.cons₂
      rw [List.getLastD_eq_getLast?, List.getLast?_cons_cons]
      rcases hx : (b :: t).getLast? with _ | x
      · simp at hx
      · have hmem : x ∈ b :: t := List.mem_of_mem_getLast? (hx ▸ rfl)
        simpa using List.singleton_sublist.mpr hmem

theorem simplifyPathF_base (sq : ℚ → ℚ) (f : Nat) (points : List SVGPoint) (tol : ℚ)
    (h : points.length ≤ 2) : simplifyPathF sq (f + 1) points tol = some points := by
  simp [simplifyPathF, h]

theorem simplifyPathF_collapse (sq : ℚ → ℚ) (f : Nat) (points : List SVGPoint) (tol : ℚ)
    (h : ¬ points.length ≤ 2)
    (hgt : ¬ JSNum.gtb (findFarthest sq points).1 (JSNum.fin tol) = true) :
    simplifyPathF sq (f + 1) points tol =
      some [points.headD default, points.getLastD default] := by
  simp [simplifyPathF, h, hgt]

theorem simplifyPathF_rec (sq : ℚ → ℚ) (f : Nat) (points : List SVGPoint) (tol : ℚ)
    (h : ¬ points.length ≤ 2)
    (hgt : JSNum.gtb (findFarthest sq points).1 (JSNum.fin tol) = true) :
    simplifyPathF sq (f + 1) points tol =
      match simplifyPathF sq f (points.take ((findFarthest sq points).2 + 1)) tol,
            simplifyPathF sq f (points.drop (findFarthest sq points).2) tol with
      | some leftPart, some rightPart => some (leftPart.dropLast ++ rightPart)
      | _, _ => none := by
  simp [simplifyPathF, h, hgt]

theorem head?_eq_headD_of_ne_nil {α : Type} [Inhabited α] {l : List α} (h : l ≠ []) :
    l.head? = some (l.headD default) := by
  cases l with
  | nil => exact absurd rfl h
  | cons a t => rfl

theorem getLast?_eq_getLastD_of_ne_nil {α : Type} [Inhabited α] {l : List α} (h : l ≠ []) :
    l.getLast? = some (l.getLastD default) := by
  rcases hx : l.getLast? with _ | x
  · exact absurd (List.getLast?_eq_none_iff.mp hx) h
  · rw [List.getLastD_eq_getLast?, hx]
    rfl

theorem simplify_spec (sq : ℚ → ℚ) (tol : ℚ) (htol : 0 ≤ tol) :
    ∀ (fuel : Nat) (points : List SVGPoint), points.length < fuel →
      ∃ out, simplifyPathF sq fuel points tol = some out ∧
        out.Sublist points ∧ out.head? = points.head? ∧
        out.getLast? = points.getLast? ∧
        (2 ≤ points.length → 2 ≤ out.length) ∧
        (points.length ≤ 2 → out = points) := by
  intro fuel
  induction fuel with
  | zero => intro points h; omega
  | succ f ih =>
      intro points hlt
      by_cases hlen : points.length ≤ 2
      · exact ⟨points, simplifyPathF_base sq f points tol hlen, List.Sublist.refl _,
          rfl, rfl, fun h => h, fun _ => rfl⟩
      · have hne : points ≠ [] := by
          intro he
          rw [he] at hlen
          simp at hlen
        by_cases hgt : JSNum.gtb (findFarthest sq points).1 (JSNum.fin tol) = true
        · -- recursive branch: split at the farthest interior index
          have hmi : 1 ≤ (findFarthest sq points).2 ∧
              (findFarthest sq points).2 < 1 + (points.length - 1 - 1) := by
            rcases findFarthest_index sq points with ⟨hmd0, _⟩ | h
            · rw [hmd0] at hgt
              rw [JSNum.gtb_fin_fin] at hgt
              have : tol < 0 := by exact_mod_cast of_decide_eq_true hgt
              exact absurd this (not_lt.mpr htol)
            · exact h
          obtain ⟨hmi1, hmiub⟩ := hmi
          have hmilt : (findFarthest sq points).2 < points.length - 1 := by omega
          set mi := (findFarthest sq points).2 with hmieq
          have hmiltlen : mi < points.length := by omega
          obtain ⟨outL, hLeq, hLsub, hLhead, hLlast, hL2, _⟩ :=
            ih (points.take (mi + 1)) (by rw [List.length_take]; omega)
          obtain ⟨outR, hReq, hRsub, hRhead, hRlast, hR2, _⟩ :=
            ih (points.drop mi) (by rw [List.length_drop]; omega)
          have hL2' : 2 ≤ outL.length := hL2 (by rw [List.length_take]; omega)
          have hR2' : 2 ≤ outR.length := hR2 (by rw [List.length_drop]; omega)
          have hdLne : outL.dropLast ≠ [] := by
            intro he
            have := congrArg List.length he
            rw [List.length_dropLast] at this
            simp at this
            omega
          have hRne : outR ≠ [] := by
            intro he
            rw [he] at hR2'
            simp at hR2'
          have htake : points.take (mi + 1) =
              points.take mi ++ [points.get ⟨mi, hmiltlen⟩] := by
            rw [List.take_succ, List.getElem?_eq_getElem hmiltlen]
            rfl
          refine ⟨outL.dropLast ++ outR, ?_, ?_, ?_, ?_, ?_, ?_⟩
          · rw [simplifyPathF_rec sq f points tol hlen hgt, ← hmieq, hLeq, hReq]
          · have hsubL : outL.dropLast.Sublist (points.take mi) :=
              dropLast_sublist_of_concat (htake ▸ hLsub)
            have := List.Sublist.append hsubL hRsub
            rwa [List.take_append_drop] at this
          · rw [List.head?_append_of_ne_nil _ hdLne,
              head?_dropLast_of_two_le hL2', hLhead,
              head?_take_of_pos points (mi + 1) (by omega)]
          · rw [List.getLast?_append_of_ne_nil _ hRne, hRlast,
              getLast?_drop_of_lt points mi hmiltlen]
          · intro _
            rw [List.length_append, List.length_dropLast]
            omega
          · intro h
            exact absurd h hlen
        · -- collapse branch: keep only start and stop
          refine ⟨[points.headD default, points.getLastD default],
            simplifyPathF_collapse sq f points tol hlen hgt, ?_, ?_, ?_, ?_, ?_⟩
          · exact headGetLast_sublist (by omega)
          · rw [head?_eq_headD_of_ne_nil hne]
            rfl
          · rw [getLast?_eq_getLastD_of_ne_nil hne]
            rfl
          · intro _
            simp
          · intro h
            exact absurd h hlen

theorem simplify_length2 (sq : ℚ → ℚ) (tol : ℚ) :
    ∀ (fuel : Nat) (points : List SVGPoint) (out : List SVGPoint),
      simplifyPathF sq fuel points tol = some out →
      2 ≤ points.length → 2 ≤ out.length := by
  intro fuel
  induction fuel with
  | zero => intro points out heq; simp [simplifyPathF] at heq
  | succ f ih =>
      intro points out heq hp2
      by_cases hlen : points.length ≤ 2
      · rw [simplifyPathF_base sq f points tol hlen] at heq
        rw [← Option.some_inj.mp heq]
        exact hp2
      · by_cases hgt : JSNum.gtb (findFarthest sq points).1 (JSNum.fin tol) = true
        · rw [simplifyPathF_rec sq f points tol hlen hgt] at heq
          rcases hL : simplifyPathF sq f
              (points.take ((findFarthest sq points).2 + 1)) tol with _ | l
          · rw [hL] at heq
            rcases hR : simplifyPathF sq f
                (points.drop ((findFarthest sq points).2)) tol with _ | r <;>
              rw [hR] at heq <;> simp at heq
          · rcases hR : simplifyPathF sq f
                (points.drop ((findFarthest sq points).2)) tol with _ | r
            · rw [hL, hR] at heq
              simp at heq
            · rw [hL, hR] at heq
              have hout : out = l.dropLast ++ r := (Option.some_inj.mp heq).symm
              have hmi2 : (findFarthest sq points).2 ≤ points.length - 2 := by
                rcases findFarthest_index sq points with ⟨_, h0⟩ | ⟨_, hub⟩
                · omega
                · omega
              have hr2 : 2 ≤ r.length :=
                ih (points.drop ((findFarthest sq points).2)) r hR
                  (by rw [List.length_drop]; omega)
              rw [hout, List.length_append]
              omega
        · rw [simplifyPathF_collapse sq f points tol hlen hgt] at heq
          rw [← Option.some_inj.mp heq]
          simp

theorem gtb_fin_mono {m : JSNum} {t1 t2 : ℚ} (h12 : t1 ≤ t2)
    (h : JSNum.gtb m (JSNum.fin t2) = true) : JSNum.gtb m (JSNum.fin t1) = true := by
  cases m with
  | fin q =>
      rw [JSNum.gtb_fin_fin] at h ⊢
      have : t2 < q := of_decide_eq_true h
      exact decide_eq_true (by linarith)
  | posInf => rfl
  | negInf => exact absurd h (by simp [JSNum.gtb, JSNum.ltb])
  | nan => exact absurd h (by simp [JSNum.gtb, JSNum.ltb])

theorem simplify_mono (sq : ℚ → ℚ) (t1 t2 : ℚ) (h12 : t1 ≤ t2) :
    ∀ (fuel : Nat) (points o1 o2 : List SVGPoint),
      simplifyPathF sq fuel points t1 = some o1 →
      simplifyPathF sq fuel points t2 = some o2 →
      o2.length ≤ o1.length := by
  intro fuel
  induction fuel with
  | zero => intro points o1 o2 h1 _; simp [simplifyPathF] at h1
  | succ f ih =>
      intro points o1 o2 h1 h2
      by_cases hlen : points.length ≤ 2
      · rw [simplifyPathF_base sq f points t1 hlen] at h1
        rw [simplifyPathF_base sq f points t2 hlen] at h2
        rw [← Option.some_inj.mp h1, ← Option.some_inj.mp h2]
      · by_cases hgt2 : JSNum.gtb (findFarthest sq points).1 (JSNum.fin t2) = true
        · have hgt1 := gtb_fin_mono h12 hgt2
          rw [simplifyPathF_rec sq f points t1 hlen hgt1] at h1
          rw [simplifyPathF_rec sq f points t2 hlen hgt2] at h2
          rcases hL1 : simplifyPathF sq f
              (points.take ((findFarthest sq points).2 + 1)) t1 with _ | l1 <;>
            rw [hL1] at h1 <;>
            rcases hR1 : simplifyPathF sq f
                (points.drop ((findFarthest sq points).2)) t1 with _ | r1 <;>
            rw [hR1] at h1 <;>
            try simp at h1
          rcases hL2 : simplifyPathF sq f
              (points.take ((findFarthest sq points).2 + 1)) t2 with _ | l2 <;>
            rw [hL2] at h2 <;>
            rcases hR2 : simplifyPathF sq f
                (points.drop ((findFarthest sq points).2)) t2 with _ | r2 <;>
            rw [hR2] at h2 <;>
            try simp at h2
          have ho1 : o1 = l1.dropLast ++ r1 := h1.symm
          have ho2 : o2 = l2.dropLast ++ r2 := h2.symm
          have hlle := ih (points.take ((findFarthest sq points).2 + 1)) l1 l2 hL1 hL2
          have hrle := ih (points.drop ((findFarthest sq points).2)) r1 r2 hR1 hR2
          rw [ho1, ho2, List.length_append, List.length_append,
            List.length_dropLast, List.length_dropLast]
          omega
        · by_cases hgt1 : JSNum.gtb (findFarthest sq points).1 (JSNum.fin t1) = true
          · rw [simplifyPathF_collapse sq f points t2 hlen hgt2] at h2
            have ho2 : o2 = [points.headD default, points.getLastD default] :=
              (Option.some_inj.mp h2).symm
            have h12' : 2 ≤ o1.length :=
              simplify_length2 sq t1 (f + 1) points o1 h1 (by omega)
            rw [ho2]
            simpa using h12'
          · rw [simplifyPathF_collapse sq f points t1 hlen hgt1] at h1
            rw [simplifyPathF_collapse sq f points t2 hlen hgt2] at h2
            rw [← Option.some_inj.mp h1, ← Option.some_inj.mp h2]

/-- Claim C8: for every planar point sequence and every tolerance ≥ 0
the simplifier terminates and its output is a subsequence of its input
(element identity and order preserved, nothing synthesized), its
length is at most the input length, the first and last elements are
preserved, and sequences of length ≤ 2 are returned unchanged. -/
theorem c8_simplify_subsequence (sq : ℚ → ℚ) (points : List SVGPoint) (tolerance : ℚ)
    (htol : 0 ≤ tolerance) :
    ∃ out, simplifyPath sq points tolerance = some out ∧
      out.Sublist points ∧ out.length ≤ points.length ∧
      out.head? = points.head? ∧ out.getLast? = points.getLast? ∧
      (points.length ≤ 2 → out = points) := by
  obtain ⟨out, heq, hsub, hh, hl, _, hle2⟩ :=
    simplify_spec sq tolerance htol (points.length + 1) points (by omega)
  exact ⟨out, heq, hsub, hsub.length_le, hh, hl, hle2⟩

theorem c8_simplify_subsequence_witness :
    (0:ℚ) ≤ 0 ∧
    ∃ out, simplifyPath (fun q => q)
        [⟨JSNum.fin 0, JSNum.fin 0, default⟩, ⟨JSNum.fin 1, JSNum.fin 0, default⟩,
         ⟨JSNum.fin 2, JSNum.fin 1, default⟩, ⟨JSNum.fin 3, JSNum.fin 0, default⟩] 0 =
        some out ∧
      out.Sublist [⟨JSNum.fin 0, JSNum.fin 0, default⟩, ⟨JSNum.fin 1, JSNum.fin 0, default⟩,
         ⟨JSNum.fin 2, JSNum.fin 1, default⟩, ⟨JSNum.fin 3, JSNum.fin 0, default⟩] ∧
      out.length ≤ ([⟨JSNum.fin 0, JSNum.fin 0, default⟩, ⟨JSNum.fin 1, JSNum.fin 0, default⟩,
         ⟨JSNum.fin 2, JSNum.fin 1, default⟩,
         ⟨JSNum.fin 3, JSNum.fin 0, default⟩] : List SVGPoint).length ∧
      out.head? = ([⟨JSNum.fin 0, JSNum.fin 0, default⟩, ⟨JSNum.fin 1, JSNum.fin 0, default⟩,
         ⟨JSNum.fin 2, JSNum.fin 1, default⟩,
         ⟨JSNum.fin 3, JSNum.fin 0, default⟩] : List SVGPoint).head? ∧
      out.getLast? = ([⟨JSNum.fin 0, JSNum.fin 0, default⟩, ⟨JSNum.fin 1, JSNum.fin 0, default⟩,
         ⟨JSNum.fin 2, JSNum.fin 1, default⟩,
         ⟨JSNum.fin 3, JSNum.fin 0, default⟩] : List SVGPoint).getLast? ∧
      (([⟨JSNum.fin 0, JSNum.fin 0, default⟩, ⟨JSNum.fin 1, JSNum.fin 0, default⟩,
         ⟨JSNum.fin 2, JSNum.fin 1, default⟩,
         ⟨JSNum.fin 3, JSNum.fin 0, default⟩] : List SVGPoint).length ≤ 2 →
        out = [⟨JSNum.fin 0, JSNum.fin 0, default⟩, ⟨JSNum.fin 1, JSNum.fin 0, default⟩,
         ⟨JSNum.fin 2, JSNum.fin 1, default⟩, ⟨JSNum.fin 3, JSNum.fin 0, default⟩]) :=
  ⟨le_refl 0, c8_simplify_subsequence (fun q => q)
    [⟨JSNum.fin 0, JSNum.fin 0, default⟩, ⟨JSNum.fin 1, JSNum.fin 0, default⟩,
     ⟨JSNum.fin 2, JSNum.fin 1, default⟩, ⟨JSNum.fin 3, JSNum.fin 0, default⟩] 0 (le_refl 0)⟩

/-- Claim C9: for every planar point sequence the simplifier's output
length is monotonically non-increasing in the tolerance, over the
contract's tolerance domain `tolerance ≥ 0`: for `0 ≤ t1 ≤ t2` both
runs terminate and the output for `t2` is at most as long as the
output for `t1`. -/
theorem c9_simplify_tolerance_monotone (sq : ℚ → ℚ) (points : List SVGPoint)
    (t1 t2 : ℚ) (h0 : 0 ≤ t1) (h12 : t1 ≤ t2) :
    ∃ o1 o2, simplifyPath sq points t1 = some o1 ∧
      simplifyPath sq points t2 = some o2 ∧ o2.length ≤ o1.length := by
  obtain ⟨o1, h1, _⟩ := simplify_spec sq t1 h0 (points.length + 1) points (by omega)
  obtain ⟨o2, h2, _⟩ :=
    simplify_spec sq t2 (le_trans h0 h12) (points.length + 1) points (by omega)
  exact ⟨o1, o2, h1, h2, simplify_mono sq t1 t2 h12 (points.length + 1) points o1 o2 h1 h2⟩

theorem c9_simplify_tolerance_monotone_witness :
    (0:ℚ) ≤ 0 ∧ (0:ℚ) ≤ 1 ∧
    ∃ o1 o2, simplifyPath (fun q => q)
        [⟨JSNum.fin 0, JSNum.fin 0, default⟩, ⟨JSNum.fin 1, JSNum.fin 0, default⟩,
         ⟨JSNum.fin 2, JSNum.fin 1, default⟩, ⟨JSNum.fin 3, JSNum.fin 0, default⟩] 0 =
        some o1 ∧
      simplifyPath (fun q => q)
        [⟨JSNum.fin 0, JSNum.fin 0, default⟩, ⟨JSNum.fin 1, JSNum.fin 0, default⟩,
         ⟨JSNum.fin 2, JSNum.fin 1, default⟩, ⟨JSNum.fin 3, JSNum.fin 0, default⟩] 1 =
        some o2 ∧ o2.length ≤ o1.length :=
  ⟨le_refl 0, by norm_num, c9_simplify_tolerance_monotone (fun q => q)
    [⟨JSNum.fin 0, JSNum.fin 0, default⟩, ⟨JSNum.fin 1, JSNum.fin 0, default⟩,
     ⟨JSNum.fin 2, JSNum.fin 1, default⟩, ⟨JSNum.fin 3, JSNum.fin 0, default⟩] 0 1
    (le_refl 0) (by norm_num)⟩

/-- One command of the emitted SVG path string: the source emits
`M x y` for the first point and `L x y` for each later point, with
coordinates through `toFixed(2)`; the string formatting itself is
abstracted to this command list. -/
inductive PathCmd where
  | moveTo : JSNum → JSNum → PathCmd
  | lineTo : JSNum → JSNum → PathCmd
deriving DecidableEq, Repr

/-- The options record of `TrackToSVGConverter.convert`, with the
source's defaults. -/
structure ConvertOptions where
  maxWidth : ℚ := 800
  maxHeight : ℚ := 600
  padding : ℚ := 1/10
  simplify : Bool := true
  simplifyTolerance : ℚ := 1/1000
deriving DecidableEq, Repr

/-- The track metadata record (`TrackData.metadata`). -/
structure TrackMeta where
  distance : ℚ
  duration : Option ℤ := none
  elevationGain : Option ℚ := none
deriving DecidableEq, Repr

/-- `TrackData` as consumed by the converter. -/
structure TrackData where
  name : String
  points : List GPXPoint
  bounds : GeoBounds
  metadata : TrackMeta
deriving DecidableEq, Repr

/-- The converter's result (`SVGTrackData`): the path command list,
the `viewBox` (kept as its `0 0 width height` numbers), the canvas
dimensions and the original bounds. -/
structure SVGTrackData where
  name : String
  svgPath : List PathCmd
  viewBox : JSNum × JSNum
  width : JSNum
  height : JSNum
  originalBounds : GeoBounds
deriving DecidableEq, Repr

/-- The path-data emission loop of `TrackToSVGConverter.convert`:
empty input gives the empty command sequence, otherwise `M` for the
first point and `L` for the rest, coordinates through `toFixed(2)`. -/
def emitPath : List SVGPoint → List PathCmd
  | [] => []
  | p :: rest =>
      PathCmd.moveTo (JSNum.toFixed2 p.x) (JSNum.toFixed2 p.y) ::
        rest.map (fun q => PathCmd.lineTo (JSNum.toFixed2 q.x) (JSNum.toFixed2 q.y))

/-- `TrackToSVGConverter.convert`: computes the optimal dimensions,
projects every track point through `gpsToSVG` keeping the original
sample, simplifies only when `simplify` is set and there are more than
100 points, and emits the path.  The embedded `simplifyPath` returns
`none` exactly when the source recursion does not terminate, so
`convert` is `Option`-valued; it performs NO validation of the
options. -/
def convert (cosF sq : ℚ → ℚ) (trackData : TrackData) (options : ConvertOptions) :
    Option SVGTrackData :=
  let dims := calculateOptimalDimensions cosF trackData.bounds
    options.maxWidth options.maxHeight
  let points := trackData.points.map (fun point =>
    let svgCoord := gpsToSVG trackData.bounds dims.1 dims.2 options.padding
      point.lat point.lng
    ({ x := svgCoord.1, y := svgCoord.2, original := point } : SVGPoint))
  let simplified :=
    if options.simplify ∧ points.length > 100 then
      simplifyPath sq points options.simplifyTolerance
    else
      some points
  simplified.map (fun pts =>
    { name := trackData.name
      svgPath := emitPath pts
      viewBox := (dims.1, dims.2)
      width := dims.1
      height := dims.2
      originalBounds := trackData.bounds })

/-- Claim C4, counterexample.  `convert` performs no option
validation: with `maxWidth = -5 ≤ 0`, `maxHeight = -7 ≤ 0` and
`simplifyTolerance = -1/100 < 0` on a two-point track it still
produces a result instead of raising an `InvalidOptionError` (no such
error exists anywhere in the source). -/
theorem c4_invalid_options_still_convert :
    (convert (fun _ => 1) (fun q => q)
      ⟨"t", [⟨1, 0, none, none⟩, ⟨0, 1, none, none⟩], ⟨1, 0, 1, 0⟩, ⟨0, none, none⟩⟩
      ⟨-5, -7, 1/10, true, -(1/100)⟩).isSome = true := by
  rw [convert]
  simp only [List.map_cons, List.map_nil, List.length_cons, List.length_nil]
  rw [if_neg (by norm_num)]
  simp

/-- Claim C4, amended: the conversion entry point validates nothing
and raises no error: for every track and every options record with a
nonnegative `simplifyTolerance` — including `maxWidth ≤ 0` and
`maxHeight ≤ 0` — it returns a result. -/
theorem c4_convert_total (cosF sq : ℚ → ℚ) (trackData : TrackData)
    (options : ConvertOptions) (htol : 0 ≤ options.simplifyTolerance) :
    (convert cosF sq trackData options).isSome = true := by
  rw [convert]
  rw [Option.isSome_map']
  by_cases hc : options.simplify = true ∧
      (trackData.points.map (fun point =>
        let svgCoord := gpsToSVG trackData.bounds
          (calculateOptimalDimensions cosF trackData.bounds
            options.maxWidth options.maxHeight).1
          (calculateOptimalDimensions cosF trackData.bounds
            options.maxWidth options.maxHeight).2
          options.padding point.lat point.lng
        ({ x := svgCoord.1, y := svgCoord.2, original := point } : SVGPoint))).length > 100
  · rw [if_pos hc]
    obtain ⟨out, heq, _⟩ := simplify_spec sq options.simplifyTolerance htol _ _
      (Nat.lt_succ_self _)
    rw [simplifyPath, heq]
    rfl
  · rw [if_neg hc]
    rfl

theorem c4_convert_total_witness :
    (0:ℚ) ≤ 0 ∧ (convert (fun _ => 1) (fun q => q)
      ⟨"t", [⟨1, 0, none, none⟩, ⟨0, 1, none, none⟩], ⟨1, 0, 1, 0⟩, ⟨0, none, none⟩⟩
      ⟨-5, -7, 1/10, true, 0⟩).isSome = true :=
  ⟨le_refl 0, c4_convert_total (fun _ => 1) (fun q => q)
    ⟨"t", [⟨1, 0, none, none⟩, ⟨0, 1, none, none⟩], ⟨1, 0, 1, 0⟩, ⟨0, none, none⟩⟩
    ⟨-5, -7, 1/10, true, 0⟩ (le_refl 0)⟩
